/-
Verification of the libDAI belief-propagation core against its
natural-language specification.

The development shallowly embeds the in-scope parts of the repository:
  - include/dai/var.h          (class Var)
  - include/dai/clustergraph.h (class ClusterGraph)
  - include/dai/bp.h           (class BP, in particular BP::updateMessage)
  - src/exceptions.cpp         (the error-string table)
Parts of the repository that the claims depend on but whose code is not
available (prob.h, bipgraph.h, bp.cpp, properties.h) are modelled from the
specification; each such definition says so in its doc comment.

Real-valued quantities (C++ double) are idealized as real numbers.
-/
import Mathlib

set_option autoImplicit false

namespace dai

/-! ### Var (include/dai/var.h)

A Var stores a label (C++ long, embedded as Int) and a number of possible
values (C++ size_t, embedded as Nat). All six comparison operators compare
only the labels, exactly as in the source. -/

/-- Embedding of class Var: label (C++ long) and number of states (size_t). -/
structure Var where
  label : Int
  states : Nat
deriving DecidableEq, Repr

/-- Embedding of Var::operator< (compares only labels). -/
def Var.ltB (v n : Var) : Bool := v.label < n.label

/-- Embedding of Var::operator> (compares only labels). -/
def Var.gtB (v n : Var) : Bool := v.label > n.label

/-- Embedding of Var::operator<= (compares only labels). -/
def Var.leB (v n : Var) : Bool := v.label ≤ n.label

/-- Embedding of Var::operator>= (compares only labels). -/
def Var.geB (v n : Var) : Bool := v.label ≥ n.label

/-- Embedding of Var::operator!= (compares only labels). -/
def Var.neB (v n : Var) : Bool := v.label ≠ n.label

/-- Embedding of Var::operator== (compares only labels). -/
def Var.eqB (v n : Var) : Bool := v.label = n.label

/-! ### VarSet operations used by ClusterGraph

VarSet (varset.h, not under src/) is a vector of Var kept sorted by label;
membership and inclusion are decided by label comparison, and
VarSet::operator== is elementwise Var::operator== of the underlying
vectors. We embed a VarSet as a list of Var with label-based membership. -/

/-- Embedding of VarSet as the list of its variables. -/
abbrev VarSet := List Var

/-- Modelled from the spec: VarSet membership; a variable belongs to the set
iff some element has the same label (Var identity is the label). -/
def VarSet.memberB (s : VarSet) (v : Var) : Bool := s.any (fun w => w.label = v.label)

/-- Modelled from the spec: VarSet inclusion (operator<<): every variable of
s occurs in t, by label. -/
def VarSet.subsetB (s t : VarSet) : Bool := s.all (fun v => VarSet.memberB t v)

/-- Modelled from the spec: VarSet::operator== (varset.h not under src/) is
std::vector equality with elementwise Var::operator==, comparing labels. -/
def VarSet.veq : VarSet → VarSet → Bool
  | [], [] => true
  | v :: s, w :: t => (v.label = w.label) && VarSet.veq s t
  | _, _ => false

/-! ### Prob vectors and the BP message update (include/dai/bp.h)

The Prob class (prob.h) is not under src/; following the spec it is a dense
non-negative real vector with pointwise product, pointwise power by a real
exponent, sum, and L1 normalization (divide by the sum). -/

/-- Modelled from the spec: a Prob is a dense real vector. -/
abbrev Prob := List ℝ

/-- Modelled from the spec: pointwise power of a Prob by a real exponent
(TProb::operator^). -/
noncomputable def probPow (p : Prob) (a : ℝ) : Prob := p.map (fun x => x ^ a)

/-- Modelled from the spec: pointwise product of two Probs
(TProb::operator*). -/
def probMul (p q : Prob) : Prob := List.zipWith (fun x y => x * y) p q

/-- Modelled from the spec: the total sum of a Prob (TProb::totalSum). -/
def probSum (p : Prob) : ℝ := p.sum

/-- Modelled from the spec: L1 normalization of a Prob, dividing every entry
by the sum. -/
noncomputable def probNormalize (p : Prob) : Prob := p.map (fun x => x / probSum p)

/-- Embedding of BP::EdgeProp: per-edge index table, current message,
pending message and residual. -/
structure EdgeProp where
  index : List Nat
  message : Prob
  newMessage : Prob
  residual : ℝ

instance : Inhabited EdgeProp := ⟨⟨[], [], [], 0⟩⟩

/-- Embedding of the BP::Properties::UpdateType enumeration. -/
inductive UpdateType
  | SEQFIX
  | SEQRND
  | SEQMAX
  | PARALL
deriving DecidableEq, Repr

/-- Embedding of struct BP::Properties. -/
structure BPProperties where
  verbose : Nat
  maxiter : Nat
  tol : ℝ
  logdomain : Bool
  damping : ℝ
  updates : UpdateType

/-- Helper: apply a function to the entry of a list at a given position,
leaving the list unchanged when the position is out of range (the embedding
of in-place mutation of a vector element). -/
def modifyIdx {α : Type} (f : α → α) : Nat → List α → List α
  | _, [] => []
  | 0, a :: l => f a :: l
  | n + 1, a :: l => a :: modifyIdx f n l

/-- Embedding of the body of BP::updateMessage acting on one edge property:
if damping is zero the pending message is copied into the current message,
else the current message becomes (message ^ damping) * (newMessage ^ (1 -
damping)) pointwise, exactly as written at bp.h lines 138-143. -/
noncomputable def dampedCommit (damping : ℝ) (e : EdgeProp) : EdgeProp :=
  if damping = 0 then
    { e with message := e.newMessage }
  else
    { e with message := probMul (probPow e.message damping) (probPow e.newMessage (1 - damping)) }

/-- Embedding of BP::updateMessage(i, _I): mutate the edge store _edges at
row i, column _I, by the damped commit. -/
noncomputable def updateMessage (props : BPProperties) (edges : List (List EdgeProp))
    (i _I : Nat) : List (List EdgeProp) :=
  modifyIdx (fun row => modifyIdx (dampedCommit props.damping) _I row) i edges

/-- Helper: read the edge property at row i, column _I of the edge store,
returning the default edge property out of range. -/
def edgeAt (edges : List (List EdgeProp)) (i _I : Nat) : EdgeProp :=
  (edges.getD i []).getD _I default

/-! ### Error codes (src/exceptions.cpp)

The code enumeration lives in exceptions.h (not under src/); the string
table below is the one compiled in src/exceptions.cpp, and the enumeration
is modelled from the spec error taxonomy, one constructor per string in
table order. -/

/-- Modelled from the spec: the exception code enumeration, one constructor
per entry of Exception::ErrorStrings in order. -/
inductive ErrorCode
  | NOT_IMPLEMENTED
  | UNKNOWN_DAI_ALGORITHM
  | UNKNOWN_PROPERTY_TYPE
  | MALFORMED_PROPERTY
  | UNKNOWN_ENUM_VALUE
  | CANNOT_READ_FILE
  | CANNOT_WRITE_FILE
  | INVALID_FACTORGRAPH_FILE
  | NOT_ALL_PROPERTIES_SPECIFIED
  | MULTIPLE_UNDO
  | FACTORGRAPH_NOT_CONNECTED
  | IMPOSSIBLE_TYPECAST
  | INTERNAL_ERROR
  | NOT_NORMALIZABLE
deriving DecidableEq, Repr

/-- Embedding of Exception::ErrorStrings from src/exceptions.cpp, in the
order compiled there. -/
def ErrorStrings : List String :=
  ["This feature is not implemented",
   "Unknown DAI algorithm",
   "Unknown Property type",
   "Malformed Property",
   "Unknown ENUM value",
   "Cannot read file",
   "Cannot write file",
   "Invalid FactorGraph file",
   "Not all mandatory Properties specified",
   "Multiple undo levels unsupported",
   "FactorGraph is not connected",
   "Impossible typecast",
   "Internal error",
   "Quantity not normalizable"]

/-- Position of an error code in the string table. -/
def ErrorCode.toIdx : ErrorCode → Nat
  | .NOT_IMPLEMENTED => 0
  | .UNKNOWN_DAI_ALGORITHM => 1
  | .UNKNOWN_PROPERTY_TYPE => 2
  | .MALFORMED_PROPERTY => 3
  | .UNKNOWN_ENUM_VALUE => 4
  | .CANNOT_READ_FILE => 5
  | .CANNOT_WRITE_FILE => 6
  | .INVALID_FACTORGRAPH_FILE => 7
  | .NOT_ALL_PROPERTIES_SPECIFIED => 8
  | .MULTIPLE_UNDO => 9
  | .FACTORGRAPH_NOT_CONNECTED => 10
  | .IMPOSSIBLE_TYPECAST => 11
  | .INTERNAL_ERROR => 12
  | .NOT_NORMALIZABLE => 13

/-- The diagnostic string attached to an error code, read off the table of
src/exceptions.cpp. -/
def errorString (c : ErrorCode) : String := ErrorStrings.getD c.toIdx ""

/-! ### Configuration parsing (BP::setProperties)

The body of BP::setProperties lives in bp.cpp, which is not under src/. -/

/-- Modelled from the spec: a PropertySet is a bag of name to value pairs
(values possibly supplied as strings). -/
abbrev PropertySet := List (String × String)

/-- Modelled from the spec: whether the bag carries a pair with the given
key (PropertySet::hasKey, properties.h not under src/). -/
def hasKey (opts : PropertySet) (k : String) : Bool := opts.any (fun p => p.1 = k)

/-- Modelled from the spec: BP::setProperties (bp.cpp not under src/).
Configuration is a bag of name to value pairs; unknown keys are accepted
silently, and a missing mandatory key among tol, maxiter, logdomain,
updates fails with the NotSpecified error, whose compiled string is
"Not all mandatory Properties specified". -/
def setProperties (opts : PropertySet) : Except ErrorCode Unit :=
  if hasKey opts "tol" && hasKey opts "maxiter" && hasKey opts "logdomain" && hasKey opts "updates" then
    Except.ok ()
  else
    Except.error ErrorCode.NOT_ALL_PROPERTIES_SPECIFIED

/-! ### Joint belief over a VarSet (BP::belief(const VarSet&))

The body lives in bp.cpp, which is not under src/; the spec states only
the success condition and the failure code. -/

/-- Modelled from the spec: BP::belief(const VarSet &n) succeeds exactly
when n is a subset of the scope of at least one factor of the graph, and
otherwise fails with the BeliefNotRepresentable error, which is the code
whose compiled string is "This feature is not implemented". The graph is
represented by the list of its factor scopes; the spec gives no formula for
the returned table, so success carries no payload here. -/
def beliefVS (factorScopes : List VarSet) (n : VarSet) : Except ErrorCode Unit :=
  if factorScopes.any (fun I => VarSet.subsetB n I) then
    Except.ok ()
  else
    Except.error ErrorCode.NOT_IMPLEMENTED

/-! ### The run loop (BP::run)

The body of BP::run lives in bp.cpp, which is not under src/; the loop is
modelled from the spec: per full iteration the engine performs one pass and
measures the maximum change of single-variable beliefs; it stops as soon as
that maximum is at most tol, or when maxiter full iterations are reached.
The per-pass distances are abstracted as a real sequence, since the spec
treats them as given by the pass. -/

/-- Result of a run: the returned distance, the number of completed passes
(the _iters member read by BP::Iterations) and the largest distance seen
(the _maxdiff member read by BP::maxDiff). -/
structure RunResult where
  retval : ℝ
  iters : Nat
  maxdiff : ℝ

/-- Modelled from the spec: the convergence loop of BP::run. The argument
fuel is the number of full iterations still allowed, done the number of
passes already completed, cur the distance achieved by the last pass and
maxd the largest distance seen so far. -/
noncomputable def runLoop (tol : ℝ) (diff : Nat → ℝ) :
    Nat → Nat → ℝ → ℝ → RunResult
  | 0, done, cur, maxd => ⟨cur, done, maxd⟩
  | fuel + 1, done, _cur, maxd =>
    let d := diff done
    if d ≤ tol then ⟨d, done + 1, max maxd d⟩
    else runLoop tol diff fuel (done + 1) d (max maxd d)

/-- Modelled from the spec: BP::run with tolerance tol, iteration cap
maxiter, and per-pass belief distances diff; _maxdiff starts at 0 and the
initial achieved distance (returned only if maxiter = 0) is 1. -/
noncomputable def run (tol : ℝ) (diff : Nat → ℝ) (maxiter : Nat) : RunResult :=
  runLoop tol diff maxiter 0 1 0

/-! ### ClusterGraph (include/dai/clustergraph.h)

The BipartiteGraph class (bipgraph.h) is not under src/; following the
spec design notes it is modelled as two arrays of neighbor lists holding
node indices, kept consistent with cluster membership. For the queries
below (isMaximal, eraseNonMaximal) the neighborhoods are derived from the
clusters themselves: nb2(I) is the variable list of cluster I and nb1(i)
is the list of clusters containing variable i, which is the ClusterGraph
invariant. -/

/-- Modelled from the spec: a BipartiteGraph as two arrays of neighbor
lists of node indices (bipgraph.h not under src/). -/
structure BipGraph where
  nb1 : List (List Nat)
  nb2 : List (List Nat)
deriving DecidableEq, Repr

/-- Modelled from the spec: BipartiteGraph::addNode1, appending a type-1
node with no neighbors. -/
def BipGraph.addNode1 (g : BipGraph) : BipGraph :=
  { g with nb1 := g.nb1 ++ [[]] }

/-- Modelled from the spec: BipartiteGraph::addNode2 with a given neighbor
list: a new type-2 node is appended, and its index is appended to the
neighbor list of each of its type-1 neighbors. -/
def BipGraph.addNode2 (g : BipGraph) (nbs : List Nat) : BipGraph :=
  { nb1 := nbs.foldl (fun acc n => modifyIdx (fun l => l ++ [g.nb2.length]) n acc) g.nb1,
    nb2 := g.nb2 ++ [nbs] }

/-- Embedding of class ClusterGraph: the bipartite structure, the variables
and the clusters. -/
structure ClusterGraph where
  G : BipGraph
  vars : List Var
  clusters : List VarSet
deriving DecidableEq, Repr

/-- Helper: the index of the first variable of vs with the label of n, or
vs.length when there is none (the find over vars in ClusterGraph::insert,
using Var::operator==). -/
def findVarIdx (vs : List Var) (n : Var) : Nat :=
  match vs with
  | [] => 0
  | w :: ws => if w.label = n.label then 0 else findVarIdx ws n + 1

/-- Embedding of ClusterGraph::insert: if the cluster is not already
present (by VarSet::operator==), it is appended; each of its variables is
looked up in vars, appended to vars (and given a fresh graph node) when
absent, and the neighbor indices collected in order; finally a type-2 node
with those neighbors is added. If the cluster is present, nothing happens. -/
def ClusterGraph.insert (cg : ClusterGraph) (cl : VarSet) : ClusterGraph :=
  if cg.clusters.any (fun d => VarSet.veq d cl) then cg
  else
    let st := cl.foldl
      (fun (acc : List Var × BipGraph × List Nat) n =>
        let iter := findVarIdx acc.1 n
        if iter = acc.1.length then
          (acc.1 ++ [n], acc.2.1.addNode1, acc.2.2 ++ [iter])
        else
          (acc.1, acc.2.1, acc.2.2 ++ [iter]))
      (cg.vars, cg.G, [])
    { G := st.2.1.addNode2 st.2.2,
      vars := st.1,
      clusters := cg.clusters ++ [cl] }

/-- Embedding of ClusterGraph::isMaximal(I) with the graph neighborhoods
derived from cluster membership: cluster I is maximal unless some variable
of it belongs to a different cluster J that includes cluster I. For an out
of range I the cluster defaults to the empty set. -/
def isMaximal (cls : List VarSet) (I : Nat) : Bool :=
  let clI := cls.getD I []
  !(clI.any (fun v => (List.range cls.length).any (fun J =>
      decide (J ≠ I) && VarSet.memberB (cls.getD J []) v && VarSet.subsetB clI (cls.getD J []))))

/-- Embedding of the loop of ClusterGraph::eraseNonMaximal: scan the
clusters from position I upward; a non-maximal cluster is erased in place
(the scan stays at the same position), a maximal one is kept (the scan
advances). -/
def eraseNonMaximalLoop (cls : List VarSet) (I : Nat) : List VarSet :=
  if h : I < cls.length then
    if isMaximal cls I then eraseNonMaximalLoop cls (I + 1)
    else eraseNonMaximalLoop (cls.eraseIdx I) I
  else cls
termination_by cls.length - I
decreasing_by
  · omega
  · have hlen : (cls.eraseIdx I).length = cls.length - 1 := by
      simp [List.length_eraseIdx, h]
    omega

/-- Embedding of ClusterGraph::eraseNonMaximal on the cluster list: erase
all clusters that are not maximal, scanning from the front. -/
def eraseNonMaximal (cls : List VarSet) : List VarSet :=
  eraseNonMaximalLoop cls 0

/-- Invariant for the eraseNonMaximal scan: the cluster c occurs at a
position of cur, and every position of cur holding a superset of c is that
very position. -/
def UniqueSup (cur : List VarSet) (c : VarSet) : Prop :=
  ∃ q, q < cur.length ∧ cur.getD q [] = c ∧
    ∀ r, r < cur.length → VarSet.subsetB c (cur.getD r []) = true → r = q

/-- Invariant for the eraseNonMaximal scan: every nonempty cluster at a
position below I is included in no cluster at a different position. -/
def BelowMaximal (cur : List VarSet) (I : Nat) : Prop :=
  ∀ p, p < cur.length → p < I → cur.getD p [] ≠ [] →
    ∀ q, q < cur.length → q ≠ p →
      VarSet.subsetB (cur.getD p []) (cur.getD q []) = false

/-! ## Basic lemmas about the helpers -/

theorem modifyIdx_length {α : Type} (f : α → α) (n : Nat) (l : List α) :
    (modifyIdx f n l).length = l.length := by
  induction l generalizing n with
  | nil => cases n <;> rfl
  | cons a l ih =>
    cases n with
    | zero => rfl
    | succ m => simp [modifyIdx, ih]

theorem modifyIdx_getD_self {α : Type} (f : α → α) (n : Nat) (l : List α) (d : α)
    (h : n < l.length) : (modifyIdx f n l).getD n d = f (l.getD n d) := by
  induction l generalizing n with
  | nil => simp at h
  | cons a l ih =>
    cases n with
    | zero => rfl
    | succ m =>
      simp only [modifyIdx, List.getD_cons_succ]
      exact ih m (by simpa using h)

theorem modifyIdx_getD_ne {α : Type} (f : α → α) {m n : Nat} (l : List α) (d : α)
    (h : m ≠ n) : (modifyIdx f n l).getD m d = l.getD m d := by
  induction l generalizing m n with
  | nil => cases n <;> rfl
  | cons a l ih =>
    cases n with
    | zero =>
      cases m with
      | zero => exact absurd rfl h
      | succ k => rfl
    | succ n =>
      cases m with
      | zero => rfl
      | succ k =>
        simp only [modifyIdx, List.getD_cons_succ]
        exact ih (fun hk => h (by omega))

theorem modifyIdx_oob {α : Type} (f : α → α) {n : Nat} {l : List α}
    (h : l.length ≤ n) : modifyIdx f n l = l := by
  induction l generalizing n with
  | nil => cases n <;> rfl
  | cons a l ih =>
    cases n with
    | zero => simp at h
    | succ m =>
      simp only [modifyIdx, List.cons.injEq, true_and]
      exact ih (by simpa using h)

theorem modifyIdx_eq_self {α : Type} (f : α → α) (n : Nat) (l : List α)
    (h : ∀ a ∈ l, f a = a) : modifyIdx f n l = l := by
  induction l generalizing n with
  | nil => cases n <;> rfl
  | cons a l ih =>
    cases n with
    | zero => simp [modifyIdx, h a (by simp)]
    | succ m =>
      simp only [modifyIdx, List.cons.injEq, true_and]
      exact ih m (fun b hb => h b (by simp [hb]))

theorem dampedCommit_default (d : ℝ) : dampedCommit d default = default := by
  by_cases hd : d = 0 <;>
    simp [dampedCommit, hd, probMul, probPow, default]

/-- The committed edge of the updated store is the damped commit of the old
edge; this holds unconditionally since out-of-range positions give the
default edge property, which the damped commit fixes. -/
theorem edgeAt_updateMessage (props : BPProperties) (edges : List (List EdgeProp))
    (i _I : Nat) :
    edgeAt (updateMessage props edges i _I) i _I =
      dampedCommit props.damping (edgeAt edges i _I) := by
  unfold edgeAt updateMessage
  by_cases hi : i < edges.length
  · rw [modifyIdx_getD_self _ _ _ _ hi]
    by_cases hI : _I < (edges.getD i []).length
    · rw [modifyIdx_getD_self _ _ _ _ hI]
    · rw [modifyIdx_oob (dampedCommit props.damping) (Nat.le_of_not_lt hI)]
      rw [List.getD_eq_default _ _ (Nat.le_of_not_lt hI), dampedCommit_default]
  · rw [modifyIdx_oob _ (Nat.le_of_not_lt hi)]
    rw [List.getD_eq_default _ _ (Nat.le_of_not_lt hi)]
    simp [dampedCommit_default]

theorem updateMessage_row_ne (props : BPProperties) (edges : List (List EdgeProp))
    (i _I : Nat) {j : Nat} (h : j ≠ i) :
    (updateMessage props edges i _I).getD j [] = edges.getD j [] := by
  unfold updateMessage
  exact modifyIdx_getD_ne _ _ _ h

theorem updateMessage_edge_ne (props : BPProperties) (edges : List (List EdgeProp))
    (i _I : Nat) {J : Nat} (h : J ≠ _I) :
    edgeAt (updateMessage props edges i _I) i J = edgeAt edges i J := by
  unfold edgeAt updateMessage
  by_cases hi : i < edges.length
  · rw [modifyIdx_getD_self _ _ _ _ hi, modifyIdx_getD_ne _ _ _ h]
  · rw [modifyIdx_oob _ (Nat.le_of_not_lt hi)]

theorem probMul_pow_one_pow_zero (m n : Prob) (h : m.length = n.length) :
    probMul (probPow m 1) (probPow n 0) = m := by
  induction m generalizing n with
  | nil => simp [probMul, probPow]
  | cons x m ih =>
    cases n with
    | nil => simp at h
    | cons y n =>
      simp only [probMul, probPow, List.map_cons, List.zipWith_cons_cons] at *
      rw [Real.rpow_one, Real.rpow_zero, mul_one]
      have := ih n (by simpa using h)
      simp only [probMul, probPow] at this
      rw [this]

theorem dampedCommit_one (e : EdgeProp) (h : e.message.length = e.newMessage.length) :
    dampedCommit 1 e = e := by
  rw [dampedCommit, if_neg one_ne_zero]
  have h10 : (1 : ℝ) - 1 = 0 := by norm_num
  rw [h10, probMul_pow_one_pow_zero _ _ h]

/-! ## Claim theorems for the message update -/

/-- C6: equality, inequality and the four ordering comparisons between two
Var values are determined solely by their labels, regardless of the states
fields, so variables in any set are ordered by label ascending. -/
theorem var_comparisons_by_label (v w : Var) :
    (Var.eqB v w = true ↔ v.label = w.label) ∧
    (Var.neB v w = true ↔ v.label ≠ w.label) ∧
    (Var.ltB v w = true ↔ v.label < w.label) ∧
    (Var.gtB v w = true ↔ v.label > w.label) ∧
    (Var.leB v w = true ↔ v.label ≤ w.label) ∧
    (Var.geB v w = true ↔ v.label ≥ w.label) := by
  simp [Var.eqB, Var.neB, Var.ltB, Var.gtB, Var.leB, Var.geB]

/-- C7: when the damping parameter equals exactly 0, committing via
updateMessage copies the freshly computed new message into the stored
message (leaving the other fields of the edge intact), and touches no
other edge of the store. -/
theorem updateMessage_zero_damping (props : BPProperties) (edges : List (List EdgeProp))
    (i _I : Nat) (hd : props.damping = 0) :
    edgeAt (updateMessage props edges i _I) i _I =
      { edgeAt edges i _I with message := (edgeAt edges i _I).newMessage } ∧
    (∀ j, j ≠ i → (updateMessage props edges i _I).getD j [] = edges.getD j []) ∧
    (∀ J, J ≠ _I → edgeAt (updateMessage props edges i _I) i J = edgeAt edges i J) := by
  refine ⟨?_, fun j hj => updateMessage_row_ne props edges i _I hj,
    fun J hJ => updateMessage_edge_ne props edges i _I hJ⟩
  rw [edgeAt_updateMessage, dampedCommit, hd, if_pos rfl]

/-- Witness for C7 at a concrete edge store with damping 0. -/
theorem updateMessage_zero_damping_witness :
    edgeAt (updateMessage ⟨0, 10, 1 / 1000000000, false, 0, UpdateType.PARALL⟩
        [[⟨[0, 1], [(1 : ℝ) / 2, 1 / 2], [3 / 10, 7 / 10], 0⟩]] 0 0) 0 0 =
      { edgeAt [[⟨[0, 1], [(1 : ℝ) / 2, 1 / 2], [3 / 10, 7 / 10], 0⟩]] 0 0 with
          message := (edgeAt [[⟨[0, 1], [(1 : ℝ) / 2, 1 / 2], [3 / 10, 7 / 10], 0⟩]] 0 0).newMessage } :=
  (updateMessage_zero_damping ⟨0, 10, 1 / 1000000000, false, 0, UpdateType.PARALL⟩
    [[⟨[0, 1], [(1 : ℝ) / 2, 1 / 2], [3 / 10, 7 / 10], 0⟩]] 0 0 rfl).1

/-- C8: when the damping parameter equals exactly 1, the committed message
is old^1 pointwise-multiplied by new^0, i.e. the old message, so the edge
store is left entirely unchanged (messages never change under damping 1);
the lengths hypothesis is the edge-table invariant that message and
pending message both have length states(i). -/
theorem updateMessage_damping_one (props : BPProperties) (edges : List (List EdgeProp))
    (i _I : Nat) (hd : props.damping = 1)
    (hlen : ∀ row ∈ edges, ∀ e ∈ row, e.message.length = e.newMessage.length) :
    updateMessage props edges i _I = edges := by
  unfold updateMessage
  rw [hd]
  apply modifyIdx_eq_self
  intro row hrow
  apply modifyIdx_eq_self
  intro e he
  exact dampedCommit_one e (hlen row hrow e he)

/-- Witness for C8 at a concrete edge store with damping 1. -/
theorem updateMessage_damping_one_witness :
    updateMessage ⟨0, 1, 1, false, 1, UpdateType.SEQFIX⟩
        [[⟨[], [(1 : ℝ) / 2, 1 / 2], [1 / 3, 2 / 3], 0⟩]] 0 0 =
      [[⟨[], [(1 : ℝ) / 2, 1 / 2], [1 / 3, 2 / 3], 0⟩]] :=
  updateMessage_damping_one ⟨0, 1, 1, false, 1, UpdateType.SEQFIX⟩
    [[⟨[], [(1 : ℝ) / 2, 1 / 2], [1 / 3, 2 / 3], 0⟩]] 0 0 rfl
    (by
      intro row hrow e he
      simp only [List.mem_singleton] at hrow
      subst hrow
      simp only [List.mem_singleton] at he
      subst he
      rfl)

/-- C1 counterexample: with damping 1/2 the message committed by
updateMessage is not the normalization of old^d * new^(1-d): at this input
the committed head is (1/2)^(1/2) < 1 while the normalized combination has
head 1, because updateMessage applies no normalization. -/
theorem updateMessage_not_normalized_cex :
    (edgeAt (updateMessage ⟨0, 1, 1, false, 1 / 2, UpdateType.SEQFIX⟩
        [[⟨[], [1, 0], [1 / 2, 1 / 2], 0⟩]] 0 0) 0 0).message ≠
      probNormalize (probMul (probPow [1, 0] (1 / 2))
        (probPow [(1 : ℝ) / 2, 1 / 2] (1 - 1 / 2))) := by
  have ha1 : ((1 : ℝ) / 2) ^ ((1 : ℝ) / 2) < 1 :=
    Real.rpow_lt_one (by norm_num) (by norm_num) (by norm_num)
  intro h
  rw [edgeAt_updateMessage] at h
  norm_num [dampedCommit, probMul, probPow, probNormalize, probSum, edgeAt,
    Real.one_rpow, Real.zero_rpow] at h
  exact absurd h (ne_of_lt ha1)

/-- C1 corrected: for a nonzero damping value d, committing via
updateMessage stores the pointwise combination old^d * new^(1-d) with no
normalization applied (and the same formula is used regardless of the
logdomain flag); the other fields of the edge and all other edges are
untouched. -/
theorem updateMessage_damped (props : BPProperties) (edges : List (List EdgeProp))
    (i _I : Nat) (hd : props.damping ≠ 0) :
    edgeAt (updateMessage props edges i _I) i _I =
      { edgeAt edges i _I with
          message := probMul (probPow (edgeAt edges i _I).message props.damping)
            (probPow (edgeAt edges i _I).newMessage (1 - props.damping)) } ∧
    (∀ j, j ≠ i → (updateMessage props edges i _I).getD j [] = edges.getD j []) ∧
    (∀ J, J ≠ _I → edgeAt (updateMessage props edges i _I) i J = edgeAt edges i J) := by
  refine ⟨?_, fun j hj => updateMessage_row_ne props edges i _I hj,
    fun J hJ => updateMessage_edge_ne props edges i _I hJ⟩
  rw [edgeAt_updateMessage, dampedCommit, if_neg hd]

/-- Witness for the corrected C1 at a concrete edge store with damping 1/2. -/
theorem updateMessage_damped_witness :
    edgeAt (updateMessage ⟨0, 1, 1, false, 1 / 2, UpdateType.SEQMAX⟩
        [[⟨[], [(3 : ℝ) / 4, 1 / 4], [1 / 4, 3 / 4], 0⟩]] 0 0) 0 0 =
      { edgeAt [[⟨[], [(3 : ℝ) / 4, 1 / 4], [1 / 4, 3 / 4], 0⟩]] 0 0 with
          message := probMul
            (probPow (edgeAt [[⟨[], [(3 : ℝ) / 4, 1 / 4], [1 / 4, 3 / 4], 0⟩]] 0 0).message (1 / 2))
            (probPow (edgeAt [[⟨[], [(3 : ℝ) / 4, 1 / 4], [1 / 4, 3 / 4], 0⟩]] 0 0).newMessage
              (1 - 1 / 2)) } :=
  (updateMessage_damped ⟨0, 1, 1, false, 1 / 2, UpdateType.SEQMAX⟩
    [[⟨[], [(3 : ℝ) / 4, 1 / 4], [1 / 4, 3 / 4], 0⟩]] 0 0 (by norm_num)).1

/-- C2 counterexample: a commit with damping 1/2 from the normalized stored
message [1/2, 1/2] and the normalized fresh message [1, 0] stores a message
whose sum is (1/2)^(1/2), not 1: commits with nonzero damping do not
re-normalize. -/
theorem updateMessage_sum_ne_one_cex :
    probSum ((edgeAt (updateMessage ⟨0, 1, 1, false, 1 / 2, UpdateType.SEQRND⟩
        [[⟨[], [(1 : ℝ) / 2, 1 / 2], [1, 0], 0⟩]] 0 0) 0 0).message) ≠ 1 := by
  have ha1 : ((1 : ℝ) / 2) ^ ((1 : ℝ) / 2) < 1 :=
    Real.rpow_lt_one (by norm_num) (by norm_num) (by norm_num)
  intro h
  rw [edgeAt_updateMessage] at h
  norm_num [dampedCommit, probMul, probPow, probSum, edgeAt,
    Real.one_rpow, Real.zero_rpow] at h
  exact absurd h (ne_of_lt ha1)

/-- C2 corrected: a commit with damping 0 stores the freshly computed
message, so the committed message is normalized (sums to 1) whenever the
fresh message is; with nonzero damping updateMessage applies no
normalization and the committed sum can differ from 1. -/
theorem commit_zero_damping_normalized (props : BPProperties) (edges : List (List EdgeProp))
    (i _I : Nat) (hd : props.damping = 0)
    (hn : probSum (edgeAt edges i _I).newMessage = 1) :
    probSum ((edgeAt (updateMessage props edges i _I) i _I).message) = 1 := by
  rw [edgeAt_updateMessage, dampedCommit, hd, if_pos rfl]
  exact hn

/-- Witness for the corrected C2 at a concrete edge store with damping 0. -/
theorem commit_zero_damping_normalized_witness :
    probSum ((edgeAt (updateMessage ⟨0, 1, 1, true, 0, UpdateType.SEQFIX⟩
        [[⟨[], [(1 : ℝ)], [3 / 10, 7 / 10], 0⟩]] 0 0) 0 0).message) = 1 :=
  commit_zero_damping_normalized ⟨0, 1, 1, true, 0, UpdateType.SEQFIX⟩
    [[⟨[], [(1 : ℝ)], [3 / 10, 7 / 10], 0⟩]] 0 0 rfl
    (by norm_num [probSum, edgeAt])

/-! ## The run loop (C3) -/

theorem runLoop_spec (tol : ℝ) (diff : Nat → ℝ) :
    ∀ (fuel done : Nat) (cur maxd : ℝ),
      done ≤ (runLoop tol diff fuel done cur maxd).iters ∧
      (runLoop tol diff fuel done cur maxd).iters ≤ done + fuel ∧
      (∀ k, done ≤ k → k + 1 < (runLoop tol diff fuel done cur maxd).iters → tol < diff k) ∧
      ((runLoop tol diff fuel done cur maxd).iters < done + fuel →
        (runLoop tol diff fuel done cur maxd).retval ≤ tol) ∧
      (done < (runLoop tol diff fuel done cur maxd).iters →
        (runLoop tol diff fuel done cur maxd).retval =
          diff ((runLoop tol diff fuel done cur maxd).iters - 1)) ∧
      ((runLoop tol diff fuel done cur maxd).iters = done →
        (runLoop tol diff fuel done cur maxd).retval = cur) ∧
      (runLoop tol diff fuel done cur maxd).maxdiff =
        ((List.range' done ((runLoop tol diff fuel done cur maxd).iters - done)).map diff).foldl
          max maxd := by
  intro fuel
  induction fuel with
  | zero =>
    intro done cur maxd
    simp only [runLoop]
    refine ⟨le_refl _, by omega, fun k hk hk2 => absurd hk2 (by omega),
      fun h => absurd h (by omega), fun h => absurd h (by omega), by trivial, by simp⟩
  | succ fuel ih =>
    intro done cur maxd
    by_cases hstop : diff done ≤ tol
    · have hr : runLoop tol diff (fuel + 1) done cur maxd =
          ⟨diff done, done + 1, max maxd (diff done)⟩ := by
        simp [runLoop, hstop]
      simp only [hr]
      refine ⟨by omega, by omega, fun k hk hk2 => absurd hk2 (by omega),
        fun _ => hstop, fun _ => by simp, fun h => absurd h (by omega), ?_⟩
      have h1 : done + 1 - done = 1 := by omega
      rw [h1, List.range'_one]
      simp
    · have hr : runLoop tol diff (fuel + 1) done cur maxd =
          runLoop tol diff fuel (done + 1) (diff done) (max maxd (diff done)) := by
        simp [runLoop, hstop]
      rw [hr]
      obtain ⟨ih1, ih2, ih3, ih4, ih5, ih6, ih7⟩ := ih (done + 1) (diff done) (max maxd (diff done))
      refine ⟨by omega, by omega, ?_, fun h => ih4 (by omega),
        ?_, fun h => absurd h (by omega), ?_⟩
      · intro k hk hk2
        rcases Nat.eq_or_lt_of_le hk with hk | hk
        · exact hk ▸ lt_of_not_le hstop
        · exact ih3 k hk hk2
      · intro h
        rcases Nat.eq_or_lt_of_le ih1 with he | hlt
        · rw [ih6 he.symm, ← he]
          simp
        · exact ih5 hlt
      · rw [ih7]
        have hn : (runLoop tol diff fuel (done + 1) (diff done) (max maxd (diff done))).iters - done =
            ((runLoop tol diff fuel (done + 1) (diff done) (max maxd (diff done))).iters - (done + 1)) + 1 := by
          omega
        rw [hn, List.range'_succ, List.map_cons, List.foldl_cons]

/-- C3: for every tolerance, iteration cap and sequence of per-pass belief
distances, run terminates after at most maxiter full iterations; it never
continues past a pass whose distance is at most tol (so it stops as soon as
the distance drops to tol); it returns the distance achieved by its last
pass; afterwards Iterations reads the number of completed passes and
maxDiff the largest distance seen during the run. -/
theorem run_spec (tol : ℝ) (diff : Nat → ℝ) (maxiter : Nat) :
    (run tol diff maxiter).iters ≤ maxiter ∧
    (∀ k, k + 1 < (run tol diff maxiter).iters → tol < diff k) ∧
    ((run tol diff maxiter).iters < maxiter → (run tol diff maxiter).retval ≤ tol) ∧
    (0 < (run tol diff maxiter).iters →
      (run tol diff maxiter).retval = diff ((run tol diff maxiter).iters - 1)) ∧
    (run tol diff maxiter).maxdiff =
      ((List.range (run tol diff maxiter).iters).map diff).foldl max 0 := by
  obtain ⟨h1, h2, h3, h4, h5, h6, h7⟩ := runLoop_spec tol diff maxiter 0 1 0
  have hrange : List.range (run tol diff maxiter).iters =
      List.range' 0 ((run tol diff maxiter).iters - 0) := by
    rw [Nat.sub_zero, List.range_eq_range']
  refine ⟨by simpa using h2, fun k hk => h3 k (Nat.zero_le k) hk,
    fun h => h4 (by simpa using h), h5, ?_⟩
  rw [hrange]
  exact h7

/-- Witness for C3 with tolerance 0, the zero distance sequence and cap 1:
one pass is performed and its distance is returned. -/
theorem run_spec_witness :
    (run 0 (fun _ => (0 : ℝ)) 1).iters ≤ 1 ∧
    (run 0 (fun _ => (0 : ℝ)) 1).retval =
      (fun _ => (0 : ℝ)) ((run 0 (fun _ => (0 : ℝ)) 1).iters - 1) :=
  ⟨(run_spec 0 (fun _ => (0 : ℝ)) 1).1,
    (run_spec 0 (fun _ => (0 : ℝ)) 1).2.2.2.1 (by norm_num [run, runLoop])⟩

/-! ## Configuration and belief claims (C4, C5) -/

/-- C4: construction fails with the NotSpecified error (whose compiled
string in src/exceptions.cpp is the one below) whenever any of the
mandatory keys tol, maxiter, logdomain, updates is absent from the
configuration bag, and succeeds for every bag containing all four, so the
presence of additional unknown keys never causes an error. -/
theorem setProperties_spec :
    (∀ opts : PropertySet,
      (hasKey opts "tol" = false ∨ hasKey opts "maxiter" = false ∨
        hasKey opts "logdomain" = false ∨ hasKey opts "updates" = false) →
      setProperties opts = Except.error ErrorCode.NOT_ALL_PROPERTIES_SPECIFIED) ∧
    (∀ opts : PropertySet,
      hasKey opts "tol" = true → hasKey opts "maxiter" = true →
      hasKey opts "logdomain" = true → hasKey opts "updates" = true →
      setProperties opts = Except.ok ()) ∧
    errorString ErrorCode.NOT_ALL_PROPERTIES_SPECIFIED =
      "Not all mandatory Properties specified" := by
  refine ⟨?_, ?_, rfl⟩
  · intro opts h
    rcases h with h | h | h | h <;> simp [setProperties, h]
  · intro opts h1 h2 h3 h4
    simp [setProperties, h1, h2, h3, h4]

/-- Witness for C4: a bag missing maxiter fails with NotSpecified, and a
bag with the four mandatory keys plus an unknown key succeeds. -/
theorem setProperties_spec_witness :
    setProperties [("tol", "1e-9")] = Except.error ErrorCode.NOT_ALL_PROPERTIES_SPECIFIED ∧
    setProperties [("tol", "1e-9"), ("maxiter", "100"), ("logdomain", "0"),
      ("updates", "SEQFIX"), ("unknownkey", "whatever")] = Except.ok () :=
  ⟨setProperties_spec.1 [("tol", "1e-9")] (Or.inr (Or.inl (by decide))),
    setProperties_spec.2.1 [("tol", "1e-9"), ("maxiter", "100"), ("logdomain", "0"),
      ("updates", "SEQFIX"), ("unknownkey", "whatever")]
      (by decide) (by decide) (by decide) (by decide)⟩

/-- C5: the joint belief over a VarSet n succeeds exactly when n is included
in the scope of at least one factor of the graph, and otherwise fails with
the BeliefNotRepresentable error, whose compiled string in
src/exceptions.cpp is the not-implemented string below. -/
theorem beliefVS_spec (factorScopes : List VarSet) (n : VarSet) :
    (beliefVS factorScopes n = Except.ok () ↔
      ∃ I ∈ factorScopes, VarSet.subsetB n I = true) ∧
    ((¬ ∃ I ∈ factorScopes, VarSet.subsetB n I = true) →
      beliefVS factorScopes n = Except.error ErrorCode.NOT_IMPLEMENTED) ∧
    errorString ErrorCode.NOT_IMPLEMENTED = "This feature is not implemented" := by
  refine ⟨?_, ?_, rfl⟩
  · by_cases h : factorScopes.any (fun I => VarSet.subsetB n I) = true
    · simp only [beliefVS, h, if_true]
      simp only [List.any_eq_true] at h
      exact iff_of_true (by trivial) h
    · simp only [beliefVS, h, if_false]
      simp only [List.any_eq_true] at h
      constructor
      · intro he
        exact absurd he (by simp)
      · intro he
        exact absurd he h
  · intro h
    have ha : factorScopes.any (fun I => VarSet.subsetB n I) = false := by
      rw [← Bool.not_eq_true]
      simpa [List.any_eq_true] using h
    simp [beliefVS, ha]

/-- Witness for C5: a singleton set inside the scope of the only factor
succeeds; a set not inside any factor scope fails with the
not-implemented (BeliefNotRepresentable) error. -/
theorem beliefVS_spec_witness :
    beliefVS [[⟨0, 2⟩, ⟨1, 2⟩]] [⟨1, 2⟩] = Except.ok () ∧
    beliefVS [[⟨0, 2⟩, ⟨1, 2⟩]] [⟨2, 2⟩] = Except.error ErrorCode.NOT_IMPLEMENTED :=
  ⟨(beliefVS_spec [[⟨0, 2⟩, ⟨1, 2⟩]] [⟨1, 2⟩]).1.mpr
      ⟨[⟨0, 2⟩, ⟨1, 2⟩], by decide, by decide⟩,
    (beliefVS_spec [[⟨0, 2⟩, ⟨1, 2⟩]] [⟨2, 2⟩]).2.1 (by decide)⟩

/-! ## ClusterGraph insertion (C10) -/

theorem veq_refl (s : VarSet) : VarSet.veq s s = true := by
  induction s with
  | nil => rfl
  | cons v s ih => simp [VarSet.veq, ih]

/-- C10: ClusterGraph::insert is idempotent: if the cluster is already
present (by the vector equality used by the source find), insert leaves the
whole ClusterGraph unchanged — same vars, same clusters, same bipartite
graph — and consequently inserting the same cluster twice always equals
inserting it once. -/
theorem insert_idempotent (cg : ClusterGraph) (cl : VarSet) :
    (cg.clusters.any (fun d => VarSet.veq d cl) = true → cg.insert cl = cg) ∧
    (cg.insert cl).insert cl = cg.insert cl := by
  have hpresent : ∀ g : ClusterGraph,
      g.clusters.any (fun d => VarSet.veq d cl) = true → g.insert cl = g := by
    intro g h
    rw [ClusterGraph.insert, if_pos h]
  refine ⟨hpresent cg, ?_⟩
  by_cases h : cg.clusters.any (fun d => VarSet.veq d cl) = true
  · rw [hpresent cg h, hpresent cg h]
  · apply hpresent
    rw [ClusterGraph.insert, if_neg h]
    simp [veq_refl]

/-- Witness for C10 at a concrete one-cluster graph containing its cluster. -/
theorem insert_idempotent_witness :
    ClusterGraph.insert ⟨⟨[[0]], [[0]]⟩, [⟨0, 2⟩], [[⟨0, 2⟩]]⟩ [⟨0, 2⟩] =
      (⟨⟨[[0]], [[0]]⟩, [⟨0, 2⟩], [[⟨0, 2⟩]]⟩ : ClusterGraph) :=
  (insert_idempotent ⟨⟨[[0]], [[0]]⟩, [⟨0, 2⟩], [[⟨0, 2⟩]]⟩ [⟨0, 2⟩]).1 (by decide)

/-! ## Cluster maximality (C9) -/

theorem subsetB_mem {s t : VarSet} (h : VarSet.subsetB s t = true) {v : Var} (hv : v ∈ s) :
    VarSet.memberB t v = true := by
  simp only [VarSet.subsetB, List.all_eq_true] at h
  exact h v hv

theorem isMaximal_eq_false_iff (cls : List VarSet) (I : Nat) :
    isMaximal cls I = false ↔
      ∃ v ∈ cls.getD I [], ∃ J, J < cls.length ∧ J ≠ I ∧
        VarSet.memberB (cls.getD J []) v = true ∧
        VarSet.subsetB (cls.getD I []) (cls.getD J []) = true := by
  simp only [isMaximal, Bool.not_eq_false', List.any_eq_true, List.mem_range,
    Bool.and_eq_true, decide_eq_true_eq]
  constructor
  · rintro ⟨v, hv, J, hJ, ⟨⟨hJI, hm⟩, hs⟩⟩
    exact ⟨v, hv, J, hJ, hJI, hm, hs⟩
  · rintro ⟨v, hv, J, hJ, hJI, hm, hs⟩
    exact ⟨v, hv, J, hJ, ⟨⟨hJI, hm⟩, hs⟩⟩

theorem isMaximal_of_empty {cls : List VarSet} {I : Nat} (h : cls.getD I [] = []) :
    isMaximal cls I = true := by
  unfold isMaximal
  rw [h]
  rfl

theorem no_sup_of_isMaximal {cls : List VarSet} {I : Nat}
    (hne : cls.getD I [] ≠ []) (hmax : isMaximal cls I = true) :
    ∀ J, J < cls.length → J ≠ I →
      VarSet.subsetB (cls.getD I []) (cls.getD J []) = false := by
  intro J hJ hJI
  by_contra hsub
  have hsub : VarSet.subsetB (cls.getD I []) (cls.getD J []) = true := by
    simpa using hsub
  obtain ⟨v, hv⟩ := List.exists_mem_of_ne_nil _ hne
  have hfalse : isMaximal cls I = false :=
    (isMaximal_eq_false_iff cls I).mpr ⟨v, hv, J, hJ, hJI, subsetB_mem hsub hv, hsub⟩
  rw [hmax] at hfalse
  exact Bool.noConfusion hfalse

theorem erased_nonempty {cls : List VarSet} {I : Nat} (h : isMaximal cls I = false) :
    cls.getD I [] ≠ [] := by
  obtain ⟨v, hv, -⟩ := (isMaximal_eq_false_iff cls I).mp h
  exact List.ne_nil_of_mem hv

theorem getD_eraseIdx_lt {l : List VarSet} {I p : Nat} (hI : I < l.length) (hp : p < I) :
    (l.eraseIdx I).getD p [] = l.getD p [] := by
  have h1 : p < (l.eraseIdx I).length := by
    rw [List.length_eraseIdx_of_lt hI]
    omega
  have h2 : p < l.length := by omega
  rw [List.getD_eq_getElem _ _ h1, List.getD_eq_getElem _ _ h2,
    List.getElem_eraseIdx_of_lt _ _ _ h1 hp]

theorem getD_eraseIdx_ge {l : List VarSet} {I p : Nat} (hI : I < l.length)
    (hp : p + 1 < l.length) (hIp : I ≤ p) :
    (l.eraseIdx I).getD p [] = l.getD (p + 1) [] := by
  have h1 : p < (l.eraseIdx I).length := by
    rw [List.length_eraseIdx_of_lt hI]
    omega
  rw [List.getD_eq_getElem _ _ h1, List.getD_eq_getElem _ _ hp,
    List.getElem_eraseIdx_of_ge _ _ _ h1 hIp]

theorem mem_of_getD {l : List VarSet} {k : Nat} {c : VarSet} (hk : k < l.length)
    (hc : l.getD k [] = c) : c ∈ l := by
  rw [List.getD_eq_getElem _ _ hk] at hc
  exact hc ▸ List.getElem_mem hk

theorem mem_eraseIdx_of_getD_ne {l : List VarSet} {I : Nat} {c : VarSet}
    (hI : I < l.length) (hne : l.getD I [] ≠ c) (hc : c ∈ l) : c ∈ l.eraseIdx I := by
  obtain ⟨k, hk, hkc⟩ := List.mem_iff_getElem.mp hc
  have hkD : l.getD k [] = c := by rw [List.getD_eq_getElem _ _ hk, hkc]
  have hkI : k ≠ I := fun h => hne (h ▸ hkD)
  rcases Nat.lt_or_ge k I with hlt | hge
  · exact mem_of_getD (l := l.eraseIdx I) (k := k)
      (by rw [List.length_eraseIdx_of_lt hI]; omega)
      (by rw [getD_eraseIdx_lt hI hlt, hkD])
  · have hgt : I < k := by omega
    exact mem_of_getD (l := l.eraseIdx I) (k := k - 1)
      (by rw [List.length_eraseIdx_of_lt hI]; omega)
      (by rw [getD_eraseIdx_ge hI (by omega) (by omega)]
          have hk1 : k - 1 + 1 = k := by omega
          rw [hk1, hkD])

theorem eraseNonMaximalLoop_keep {cls : List VarSet} {I : Nat} (h : I < cls.length)
    (hmax : isMaximal cls I = true) :
    eraseNonMaximalLoop cls I = eraseNonMaximalLoop cls (I + 1) := by
  rw [eraseNonMaximalLoop.eq_def]
  rw [dif_pos h, if_pos hmax]

theorem eraseNonMaximalLoop_erase {cls : List VarSet} {I : Nat} (h : I < cls.length)
    (hmax : isMaximal cls I = false) :
    eraseNonMaximalLoop cls I = eraseNonMaximalLoop (cls.eraseIdx I) I := by
  rw [eraseNonMaximalLoop.eq_def]
  rw [dif_pos h, if_neg (by simp [hmax])]

theorem eraseNonMaximalLoop_done {cls : List VarSet} {I : Nat} (h : ¬ I < cls.length) :
    eraseNonMaximalLoop cls I = cls := by
  rw [eraseNonMaximalLoop.eq_def]
  rw [dif_neg h]

theorem loop_belowMaximal : ∀ (cls : List VarSet) (I : Nat), BelowMaximal cls I →
    BelowMaximal (eraseNonMaximalLoop cls I) (eraseNonMaximalLoop cls I).length := by
  intro cls I
  induction cls, I using eraseNonMaximalLoop.induct with
  | case1 cls I h hmax ih =>
    intro hpm
    rw [eraseNonMaximalLoop_keep h hmax]
    apply ih
    intro p hp hpI hne q hq hqp
    rcases Nat.lt_or_ge p I with hpI2 | hpI2
    · exact hpm p hp hpI2 hne q hq hqp
    · have hpeq : p = I := by omega
      subst hpeq
      exact no_sup_of_isMaximal hne hmax q hq hqp
  | case2 cls I h hmax ih =>
    intro hpm
    have hmaxf : isMaximal cls I = false := by simpa using hmax
    rw [eraseNonMaximalLoop_erase h hmaxf]
    apply ih
    intro p hp hpI hne q hq hqp
    have hlen : (cls.eraseIdx I).length = cls.length - 1 := List.length_eraseIdx_of_lt h
    rw [getD_eraseIdx_lt h hpI] at hne ⊢
    rcases Nat.lt_or_ge q I with hqlt | hqge
    · rw [getD_eraseIdx_lt h hqlt]
      exact hpm p (by omega) hpI hne q (by omega) hqp
    · rw [getD_eraseIdx_ge h (by omega) hqge]
      exact hpm p (by omega) hpI hne (q + 1) (by omega) (by omega)
  | case3 cls I h =>
    intro hpm
    rw [eraseNonMaximalLoop_done h]
    intro p hp hpI hne q hq hqp
    exact hpm p hp (by omega) hne q hq hqp

theorem uniqueSup_of_isMaximal {cls : List VarSet} {I : Nat} (hI : I < cls.length)
    (hne : cls.getD I [] ≠ []) (hmax : isMaximal cls I = true) :
    UniqueSup cls (cls.getD I []) := by
  refine ⟨I, hI, rfl, ?_⟩
  intro r hr hrs
  by_contra hrI
  have hno := no_sup_of_isMaximal hne hmax r hr hrI
  rw [hrs] at hno
  exact Bool.noConfusion hno

theorem loop_uniqueSup : ∀ (cls : List VarSet) (I : Nat) (c : VarSet),
    UniqueSup cls c → c ∈ eraseNonMaximalLoop cls I := by
  intro cls I
  induction cls, I using eraseNonMaximalLoop.induct with
  | case1 cls I h hmax ih =>
    intro c hu
    rw [eraseNonMaximalLoop_keep h hmax]
    exact ih c hu
  | case2 cls I h hmax ih =>
    intro c hu
    have hmaxf : isMaximal cls I = false := by simpa using hmax
    rw [eraseNonMaximalLoop_erase h hmaxf]
    apply ih
    obtain ⟨q, hq, hqc, huniq⟩ := hu
    have hqI : q ≠ I := by
      intro he
      subst he
      obtain ⟨v, hv, J, hJ, hJI, hm, hs⟩ := (isMaximal_eq_false_iff cls q).mp hmaxf
      rw [hqc] at hs
      exact hJI (huniq J hJ hs)
    have hlen : (cls.eraseIdx I).length = cls.length - 1 := List.length_eraseIdx_of_lt h
    rcases Nat.lt_or_ge q I with hlt | hge
    · refine ⟨q, by omega, ?_, ?_⟩
      · rw [getD_eraseIdx_lt h hlt, hqc]
      · intro r hr hrs
        rcases Nat.lt_or_ge r I with hrlt | hrge
        · rw [getD_eraseIdx_lt h hrlt] at hrs
          exact huniq r (by omega) hrs
        · rw [getD_eraseIdx_ge h (by omega) hrge] at hrs
          have hr1 := huniq (r + 1) (by omega) hrs
          omega
    · have hgt : I < q := by omega
      refine ⟨q - 1, by omega, ?_, ?_⟩
      · rw [getD_eraseIdx_ge h (by omega) (by omega)]
        have hq1 : q - 1 + 1 = q := by omega
        rw [hq1, hqc]
      · intro r hr hrs
        rcases Nat.lt_or_ge r I with hrlt | hrge
        · rw [getD_eraseIdx_lt h hrlt] at hrs
          have hr1 := huniq r (by omega) hrs
          omega
        · rw [getD_eraseIdx_ge h (by omega) hrge] at hrs
          have hr1 := huniq (r + 1) (by omega) hrs
          omega
  | case3 cls I h =>
    intro c hu
    rw [eraseNonMaximalLoop_done h]
    obtain ⟨q, hq, hqc, -⟩ := hu
    exact mem_of_getD hq hqc

theorem loop_empty_mem : ∀ (cls : List VarSet) (I : Nat),
    ([] : VarSet) ∈ cls → ([] : VarSet) ∈ eraseNonMaximalLoop cls I := by
  intro cls I
  induction cls, I using eraseNonMaximalLoop.induct with
  | case1 cls I h hmax ih =>
    intro hm
    rw [eraseNonMaximalLoop_keep h hmax]
    exact ih hm
  | case2 cls I h hmax ih =>
    intro hm
    have hmaxf : isMaximal cls I = false := by simpa using hmax
    rw [eraseNonMaximalLoop_erase h hmaxf]
    exact ih (mem_eraseIdx_of_getD_ne h (erased_nonempty hmaxf) hm)
  | case3 cls I h =>
    intro hm
    rw [eraseNonMaximalLoop_done h]
    exact hm

/-- C9 counterexample: on the cluster list consisting of the empty cluster
and a singleton cluster, eraseNonMaximal keeps both (the source isMaximal
treats a cluster with no variables as maximal), yet the remaining empty
cluster is included in the remaining singleton cluster, so it is not true
that after eraseNonMaximal no remaining cluster is contained in another
remaining one. -/
theorem eraseNonMaximal_cex :
    eraseNonMaximal [[], [(⟨0, 2⟩ : Var)]] = [[], [⟨0, 2⟩]] ∧
    VarSet.subsetB ([] : VarSet) [(⟨0, 2⟩ : Var)] = true := by
  constructor
  · unfold eraseNonMaximal
    rw [eraseNonMaximalLoop_keep (by decide) (by decide),
      eraseNonMaximalLoop_keep (by decide) (by decide),
      eraseNonMaximalLoop_done (by decide)]
  · rfl

/-- C9 corrected: after eraseNonMaximal returns, no remaining nonempty
cluster is included in a remaining cluster at a different position (the
empty cluster, which the source isMaximal always deems maximal, can remain
while included in other remaining clusters), and every cluster that was
maximal in the original graph is still present. -/
theorem eraseNonMaximal_spec (cls : List VarSet) :
    (∀ p q, p < (eraseNonMaximal cls).length → q < (eraseNonMaximal cls).length →
      p ≠ q → (eraseNonMaximal cls).getD p [] ≠ [] →
      VarSet.subsetB ((eraseNonMaximal cls).getD p [])
        ((eraseNonMaximal cls).getD q []) = false) ∧
    (∀ I, I < cls.length → isMaximal cls I = true →
      cls.getD I [] ∈ eraseNonMaximal cls) := by
  constructor
  · intro p q hp hq hpq hne
    have hall := loop_belowMaximal cls 0 (fun p hp hp0 => absurd hp0 (by omega))
    exact hall p hp hp hne q hq (Ne.symm hpq)
  · intro I hI hmax
    by_cases hemp : cls.getD I [] = []
    · rw [hemp]
      exact loop_empty_mem cls 0 (mem_of_getD hI hemp)
    · exact loop_uniqueSup cls 0 _ (uniqueSup_of_isMaximal hI hemp hmax)

/-- Witness for the corrected C9: the strict subset cluster is erased, and
the originally maximal two-variable cluster remains present. -/
theorem eraseNonMaximal_spec_witness :
    ([(⟨0, 2⟩ : Var), ⟨1, 2⟩] : VarSet) ∈ eraseNonMaximal [[⟨0, 2⟩], [⟨0, 2⟩, ⟨1, 2⟩]] :=
  (eraseNonMaximal_spec [[⟨0, 2⟩], [⟨0, 2⟩, ⟨1, 2⟩]]).2 1 (by decide) (by decide)

end dai
